import Mathlib

/-!
Verification of the workable-job-scraper core (src/src/main.ts) against its
specification. The TypeScript source is shallowly embedded: each pure helper
of main.ts becomes a Lean definition with the same name, JavaScript nullish
values become `Option`, JavaScript string falsiness becomes an explicit
emptiness test, and the stateful LIST-handler enqueue loop becomes a pure
fold over the discovered links carrying the seen-URL set and the list of
enqueued DETAIL tasks.
-/

namespace WorkableScraper

/-! ## Input schema and the results-wanted clamp (main.ts lines 14-27) -/

inductive PostedDate where
  | h24
  | d7
  | d30
  | anytime
deriving DecidableEq, Repr

structure InputSchema where
  keyword : String
  location : Option String := none
  postedDate : Option PostedDate := none
  resultsWanted : Option Int := none

/-- Embeds `Math.max(1, Math.min(500, input.resultsWanted ?? 50))` from main.ts line 27. -/
def resultsWantedOf (rw : Option Int) : Int :=
  max 1 (min 500 (rw.getD 50))

/-- The effective target as a natural number, for use as the enqueue cap. -/
def resultsWantedNat (rw : Option Int) : Nat :=
  (resultsWantedOf rw).toNat

/-! ## Search URL construction (main.ts lines 91-109) -/

/-- A character of the regex class `[a-z0-9-]`. -/
def slugChar (c : Char) : Bool :=
  c.isLower || c.isDigit || c = '-'

/-- After a nonempty run of slug characters: either the string ends, more slug
characters follow, or a single slash introduces a nonempty all-slug second
segment (slash itself is not a slug character, so a second slash fails). -/
def slugTail : List Char → Bool
  | [] => true
  | '/' :: rest => rest ≠ [] && rest.all slugChar
  | c :: rest => slugChar c && slugTail rest

/-- Embeds the anchored regex test `/^(?:[a-z0-9-]+)(?:\/[a-z0-9-]+)?$/.test(loc)`:
one or two nonempty slug segments separated by a single slash. -/
def looksSlug (s : String) : Bool :=
  match s.data with
  | [] => false
  | c :: rest => slugChar c && slugTail rest

/-- The constructed search URL, kept structured: the base (with any location path
segment) and the ordered query parameters that `URLSearchParams` would serialize. -/
structure SearchUrl where
  base : String
  params : List (String × String)
deriving DecidableEq, Repr

/-- Embeds `buildSearchUrl` from main.ts lines 91-109. The `URLSearchParams` starts
with the keyword under the key `query`; `day_range` is set only for a posted-date
filter other than `anytime` (the map sends `anytime` to the falsy empty string);
the location becomes a path segment only when it passes the slug test, and an
empty location string is falsy and skipped. -/
def buildSearchUrl (input : InputSchema) : SearchUrl :=
  let params : List (String × String) := [("query", input.keyword)]
  let params :=
    match input.postedDate with
    | none => params
    | some pd =>
      if pd = .anytime then params
      else
        let dayRange :=
          match pd with
          | .h24 => "1"
          | .d7 => "7"
          | .d30 => "30"
          | .anytime => ""
        if dayRange = "" then params else params ++ [("day_range", dayRange)]
  let base :=
    match input.location with
    | none => "https://jobs.workable.com/search"
    | some loc =>
      if loc ≠ "" && looksSlug loc then "https://jobs.workable.com/search/" ++ loc
      else "https://jobs.workable.com/search"
  ⟨base, params⟩

/-! ## JSON-LD block selection (main.ts lines 111-147)

`parseJobPostingJSONLD` inspects every `application/ld+json` blob on the page.
A blob is embedded as `Option Json`: `none` for a blob on which `JSON.parse`
throws (the catch block skips it), `some j` for a parsed JSON value. -/

inductive Json where
  | null
  | bool (b : Bool)
  | num (n : Int)
  | str (s : String)
  | arr (elems : List Json)
  | obj (fields : List (String × Json))

/-- JavaScript truthiness of a parsed JSON value. -/
def Json.truthy : Json → Bool
  | .null => false
  | .bool b => b
  | .num n => n != 0
  | .str s => s != ""
  | .arr _ => true
  | .obj _ => true

/-- Property access `j[key]` on a parsed JSON value: `none` for `undefined`.
Later duplicate keys overwrite earlier ones, as in `JSON.parse`. -/
def Json.getField : Json → String → Option Json
  | .obj fields, key => fields.foldl (fun acc kv => if kv.1 = key then some kv.2 else acc) none
  | _, _ => none

/-- Strict string equality test `j === s` for a possibly-absent JSON value. -/
def Json.isStr : Json → String → Bool
  | .str t, s => t = s
  | _, _ => false

/-- The test `obj['@type'] === 'JobPosting'`. -/
def typeIsJobPosting (j : Json) : Bool :=
  match j.getField "@type" with
  | some v => v.isStr "JobPosting"
  | none => false

/-- The test `o.title` used (as a truthiness check) inside the array branch of `pick`. -/
def titleTruthy (j : Json) : Bool :=
  match j.getField "title" with
  | some v => v.truthy
  | none => false

/-- Embeds the inner `pick` closure of `parseJobPostingJSONLD` (main.ts lines 135-141). -/
def pick (j : Json) : Option Json :=
  if !j.truthy then none
  else
    match j with
    | .arr elems => elems.find? (fun o => o.truthy && (typeIsJobPosting o || titleTruthy o))
    | _ =>
      if typeIsJobPosting j then some j
      else
        match j.getField "mainEntityOfPage" with
        | some me => if typeIsJobPosting me then some me else none
        | none => none

/-- Embeds the blob loop of `parseJobPostingJSONLD` (main.ts lines 132-146): malformed
blobs (`none`) are skipped by the catch, and the first blob whose `pick` is truthy
is returned. -/
def parseJobPostingJSONLD : List (Option Json) → Option Json
  | [] => none
  | b :: rest =>
    match b.bind pick with
    | some jp => some jp
    | none => parseJobPostingJSONLD rest

/-- Modelled from the spec: a block qualifies only through its declared type —
directly, as an element of an array, or nested under the main-entity wrapper.
This is the selection rule the spec sentence for claim C7 describes; it is
compared against the embedded `pick`. -/
def qualifiesByDeclaredType (j : Json) : Option Json :=
  if typeIsJobPosting j then some j
  else
    match j with
    | .arr elems => elems.find? typeIsJobPosting
    | _ =>
      match j.getField "mainEntityOfPage" with
      | some me => if typeIsJobPosting me then some me else none
      | none => none

/-- Modelled from the spec: the first block qualifying by declared type, skipping
malformed blobs. -/
def specSelectDeclared (blobs : List (Option Json)) : Option Json :=
  (blobs.filterMap (fun b => b.bind qualifiesByDeclaredType)).head?

/-- The selection rule the code actually implements, written as a single
qualification function: declared type directly, the main-entity wrapper, or —
for array blobs — the first truthy element with the declared type or a truthy
title field. -/
def qualifiesAmended (j : Json) : Option Json :=
  if typeIsJobPosting j then some j
  else
    match j with
    | .arr elems => elems.find? (fun o => o.truthy && (typeIsJobPosting o || titleTruthy o))
    | _ =>
      (j.getField "mainEntityOfPage").bind (fun me => if typeIsJobPosting me then some me else none)

/-- First block qualifying under `qualifiesAmended`, skipping malformed blobs. -/
def specSelectAmended (blobs : List (Option Json)) : Option Json :=
  (blobs.filterMap (fun b => b.bind qualifiesAmended)).head?

/-! ## Typed JSON-LD job posting (main.ts lines 112-125)

The DETAIL handler consumes the picked block through the declared TypeScript
shape `JobPosting`; the embedding mirrors that shape, with `Option` for
possibly-absent members and explicit single-or-array unions. -/

structure Org where
  name : Option String := none
deriving DecidableEq, Repr

inductive OrgField where
  | one (org : Org)
  | many (orgs : List (Option Org))
deriving DecidableEq, Repr

structure Address where
  addressLocality : Option String := none
  addressRegion : Option String := none
  addressCountry : Option String := none
deriving DecidableEq, Repr

/-- A jobLocation entry: either wrapping an `address` object or carrying the
address parts directly (`first?.address || first` reads the wrapper when it is
present and otherwise the entry itself). -/
structure LocEntry where
  address : Option Address := none
  direct : Address := {}
deriving DecidableEq, Repr

inductive JobLocationField where
  | one (entry : LocEntry)
  | many (entries : List (Option LocEntry))
deriving DecidableEq, Repr

inductive EmploymentTypeField where
  | single (s : String)
  | list (l : List String)
deriving DecidableEq, Repr

structure IdEntry where
  value : Option String := none
deriving DecidableEq, Repr

inductive IdentifierField where
  | one (entry : IdEntry)
  | many (entries : List (Option IdEntry))
deriving DecidableEq, Repr

structure LD where
  title : Option String := none
  description : Option String := none
  datePosted : Option String := none
  hiringOrganization : Option OrgField := none
  jobLocation : Option JobLocationField := none
  employmentType : Option EmploymentTypeField := none
  validThrough : Option String := none
  identifier : Option IdentifierField := none
deriving DecidableEq, Repr

/-! ## Field extraction helpers (main.ts lines 149-168, 229-235) -/

/-- Insertion-order deduplication with an accumulator of already-seen values:
the semantics of `Array.from(new Set(et))`, which keeps first occurrences. -/
def dedupFirstAux (seen : List String) : List String → List String
  | [] => []
  | a :: rest =>
    if a ∈ seen then dedupFirstAux seen rest
    else a :: dedupFirstAux (seen ++ [a]) rest

def dedupFirst (l : List String) : List String :=
  dedupFirstAux [] l

/-- Embeds `normalizeEmploymentType` (main.ts lines 149-152): `!et` sends the
absent value and the falsy empty string to null, while an array — including the
empty array, which is truthy — is deduplicated and joined with `", "`. -/
def normalizeEmploymentType : Option EmploymentTypeField → Option String
  | none => none
  | some (.single s) => if s = "" then none else some s
  | some (.list l) => some (String.intercalate ", " (dedupFirst l))

/-- Embeds `extractCompanyFromLD` (main.ts lines 164-168): the first array element
(or the single object), then `org?.name || null` — an empty name is falsy and
becomes null. -/
def extractCompanyFromLD (job : Option LD) : Option String :=
  match job.bind (·.hiringOrganization) with
  | none => none
  | some f =>
    let org : Option Org :=
      match f with
      | .one o => some o
      | .many l => l.head?.bind id
    match org.bind (·.name) with
    | none => none
    | some n => if n = "" then none else some n

/-- Embeds `extractLocationFromLD` (main.ts lines 154-162): the first truthy
jobLocation entry, its `address` wrapper or the entry itself, then the parts
`[locality, region, country]` with falsy parts filtered out and the rest joined
with `", "`; an empty parts list yields null. -/
def extractLocationFromLD (job : Option LD) : Option String :=
  match job.bind (·.jobLocation) with
  | none => none
  | some f =>
    let first : Option LocEntry :=
      match f with
      | .one e => some e
      | .many l => l.findSome? id
    match first with
    | none => none
    | some e =>
      let addr := e.address.getD e.direct
      let parts :=
        ([addr.addressLocality, addr.addressRegion, addr.addressCountry].reduceOption).filter
          (fun s => s ≠ "")
      if parts = [] then none else some (String.intercalate ", " parts)

/-- Embeds the externalId expression of the DETAIL handler (main.ts lines 449-452):
`Array.isArray(ld?.identifier) ? ld.identifier[0]?.value : ld?.identifier?.value`. -/
def extractExternalId (job : Option LD) : Option String :=
  match job.bind (·.identifier) with
  | none => none
  | some (.one e) => e.value
  | some (.many l) => (l.head?.bind id).bind (·.value)

/-! ## DOM extraction results and the DETAIL item (main.ts lines 366-470)

The browser-automation collaborator is abstracted into the values its probes
return: `none` embeds a null `textContent`, `some s` a string result (a caught
probe failure yields `some ""` through the `.catch(() => '')` arms). -/

structure DomResults where
  titleText : Option String := none
  companyText : Option String := none
  locationText : Option String := none
  employmentGuess : Option String := none
  descriptionDeepHtml : String := ""
  articleText : String := ""
deriving DecidableEq, Repr

/-- The regex test `/<\w+/.test(s)` on the character list: a `<` immediately
followed by a word character. -/
def hasTagStart : List Char → Bool
  | [] => false
  | [_] => false
  | a :: b :: rest => (a = '<' && (b.isAlphanum || b = '_')) || hasTagStart (b :: rest)

def looksLikeHtml (s : String) : Bool :=
  hasTagStart s.data

/-- The DOM arm of the description chain (main.ts lines 439-445): the deep
shadow-aware innerHTML probe if it returned a nonempty string, else the article
text wrapped in a paragraph. -/
def domDescriptionFallback (dom : DomResults) : String :=
  if dom.descriptionDeepHtml ≠ "" then dom.descriptionDeepHtml
  else "<p>" ++ dom.articleText.trim ++ "</p>"

/-- Embeds the descriptionHtml chain (main.ts lines 435-446): the structured
description is used only when it is truthy and contains a tag-like pattern. -/
def descriptionHtmlOf (job : Option LD) (dom : DomResults) : String :=
  match job.bind (·.description) with
  | some d => if d ≠ "" && looksLikeHtml d then d else domDescriptionFallback dom
  | none => domDescriptionFallback dom

/-- The record pushed to the dataset per DETAIL task (main.ts lines 454-465). -/
structure JobRecord where
  url : String
  title : String
  company : String
  location : String
  datePosted : Option String
  employmentType : Option String
  validThrough : Option String
  externalId : Option String
  descriptionHtml : String
  scrapedAt : String
deriving DecidableEq, Repr

/-- Embeds the DETAIL handler field chains and the `item` literal
(main.ts lines 398-465). Nullish coalescing `??` is `Option.getD`/`Option.orElse`;
the DOM text probes are trimmed through `?.trim()` while structured values pass
through untouched. -/
def detailItem (url : String) (ld : Option LD) (dom : DomResults) (scrapedAt : String) :
    JobRecord :=
  { url := url
  , title := (ld.bind (·.title)).getD ((dom.titleText.map (·.trim)).getD "")
  , company := (extractCompanyFromLD ld).getD ((dom.companyText.map (·.trim)).getD "")
  , location := (extractLocationFromLD ld).getD ((dom.locationText.map (·.trim)).getD "")
  , datePosted := ld.bind (·.datePosted)
  , employmentType :=
      (normalizeEmploymentType (ld.bind (·.employmentType))).orElse (fun _ => dom.employmentGuess)
  , validThrough := ld.bind (·.validThrough)
  , externalId := extractExternalId ld
  , descriptionHtml := descriptionHtmlOf ld dom
  , scrapedAt := scrapedAt }

/-- Modelled from the spec: the per-field precedence that claim C5 asserts — the
structured value wins only when present and nonempty, otherwise the DOM value,
otherwise null. -/
def specPrecedence (structuredVal domVal : Option String) : Option String :=
  match structuredVal with
  | some v => if v ≠ "" then some v else domVal
  | none => domVal

/-! ## Crawl state and the LIST enqueue loop (main.ts lines 237-238, 355-363) -/

/-- The process-wide mutable state of the run: the seen-URL set (kept as an
insertion-ordered duplicate-free list) and the DETAIL tasks enqueued so far. -/
structure CrawlState where
  seenUrls : List String
  enqueuedDetail : List String
deriving DecidableEq, Repr

/-- Run start: `const seenUrls = new Set<string>()` and an empty queue. -/
def initialCrawlState : CrawlState :=
  ⟨[], []⟩

/-- Embeds the LIST-handler enqueue loop (main.ts lines 355-362): falsy or
already-seen URLs are skipped; otherwise the URL joins the seen set and is
enqueued as a DETAIL task; the loop stops as soon as the seen set, whose size
grew to `st.seenUrls.length + 1` by the add, has reached the cap. -/
def listEnqueueLoop (cap : Nat) : List String → CrawlState → CrawlState
  | [], st => st
  | url :: rest, st =>
    if url = "" ∨ url ∈ st.seenUrls then
      listEnqueueLoop cap rest st
    else if cap ≤ st.seenUrls.length + 1 then
      ⟨st.seenUrls ++ [url], st.enqueuedDetail ++ [url]⟩
    else
      listEnqueueLoop cap rest ⟨st.seenUrls ++ [url], st.enqueuedDetail ++ [url]⟩

/-- A DETAIL page as the handler observes it: the picked structured block, the
DOM probe results, the timestamp, and whether the task completes (a navigation
failure or timeout emits nothing). -/
structure DetailPage where
  ld : Option LD := none
  dom : DomResults := {}
  scrapedAt : String := ""
  succeeds : Bool := true

/-- The records the run emits: one per successfully handled DETAIL task, each
built by the DETAIL handler from its page (main.ts lines 366-470). -/
def emittedRecords (cap : Nat) (links : List String) (pageOf : String → DetailPage) :
    List JobRecord :=
  (((listEnqueueLoop cap links initialCrawlState).enqueuedDetail).filter
      (fun u => (pageOf u).succeeds)).map
    (fun u => detailItem u (pageOf u).ld (pageOf u).dom (pageOf u).scrapedAt)

/-- The value of the `collected` counter at run end (main.ts lines 237, 468). -/
def collectedCount (cap : Nat) (links : List String) (pageOf : String → DetailPage) : Nat :=
  (emittedRecords cap links pageOf).length

/-! ## LIST handler outcome (main.ts lines 303-364) -/

/-- A listing page as the LIST handler observes it: whether any job-card marker
or `/view/` link attached within the bounded wait, and the links the scroll
phase then discovers. -/
structure ListPage where
  markersAppear : Bool := true
  links : List String := []
  html : String := ""
  screenshot : String := ""

inductive HandlerOutcome where
  | completed
  | threw
deriving DecidableEq, Repr

structure ListHandlerResult where
  outcome : HandlerOutcome
  artifacts : List (String × String)
  state : CrawlState
deriving DecidableEq, Repr

/-- Embeds the LIST handler control flow after navigation (main.ts lines 306-363):
when no marker appears within the wait, the catch block saves the page HTML and a
full-page screenshot to the key-value store and rethrows the error (`throw err`,
line 318), so the handler ends without enqueueing anything; otherwise the scroll
phase runs, an empty link set saves its own debug artifacts, and the enqueue loop
adds DETAIL tasks up to the cap. -/
def listHandler (cap : Nat) (st : CrawlState) (pg : ListPage) : ListHandlerResult :=
  if !pg.markersAppear then
    { outcome := .threw
    , artifacts := [("LIST_HTML_DEBUG", pg.html), ("LIST_SCREENSHOT_DEBUG", pg.screenshot)]
    , state := st }
  else
    { outcome := .completed
    , artifacts :=
        if pg.links = [] then
          [("LIST_HTML_DEBUG_EMPTY", pg.html), ("LIST_SCREENSHOT_DEBUG_EMPTY", pg.screenshot)]
        else []
    , state := listEnqueueLoop cap pg.links st }

/-- Models the crawler configuration of main.ts lines 472-491 together with the
request isolation of the crawling library: a request whose handler throws is
retried and finally only logged by `failedRequestHandler`, never aborting the
run, so the run always completes and reports the collected count. -/
def crawlRunCollected (cap : Nat) (pg : ListPage) (pageOf : String → DetailPage) : Nat :=
  match (listHandler cap initialCrawlState pg).outcome with
  | .threw => 0
  | .completed =>
    (((listHandler cap initialCrawlState pg).state.enqueuedDetail).filter
        (fun u => (pageOf u).succeeds)).length

/-- Modelled from the spec: a trimmed string carries no leading and no trailing
whitespace. Used to state the trimming clause of claim C6. -/
def noEdgeSpace (s : String) : Bool :=
  (s.data.head?.all (fun c => !c.isWhitespace)) && (s.data.getLast?.all (fun c => !c.isWhitespace))

/-! ## Lemmas about the enqueue loop -/

theorem listEnqueueLoop_seen_le (cap : Nat) :
    ∀ (links : List String) (st : CrawlState), st.seenUrls.length < cap →
      (listEnqueueLoop cap links st).seenUrls.length ≤ cap := by
  intro links
  induction links with
  | nil => exact fun st h => Nat.le_of_lt h
  | cons url rest ih =>
    intro st h
    by_cases h1 : url = "" ∨ url ∈ st.seenUrls
    · rw [listEnqueueLoop, if_pos h1]
      exact ih st h
    · rw [listEnqueueLoop, if_neg h1]
      by_cases h2 : cap ≤ st.seenUrls.length + 1
      · rw [if_pos h2]
        simp only [List.length_append, List.length_singleton]
        omega
      · rw [if_neg h2]
        refine ih _ ?_
        simp only [List.length_append, List.length_singleton]
        omega

theorem listEnqueueLoop_len_eq (cap : Nat) :
    ∀ (links : List String) (st : CrawlState),
      st.enqueuedDetail.length = st.seenUrls.length →
      (listEnqueueLoop cap links st).enqueuedDetail.length =
        (listEnqueueLoop cap links st).seenUrls.length := by
  intro links
  induction links with
  | nil => exact fun st h => h
  | cons url rest ih =>
    intro st h
    by_cases h1 : url = "" ∨ url ∈ st.seenUrls
    · rw [listEnqueueLoop, if_pos h1]
      exact ih st h
    · rw [listEnqueueLoop, if_neg h1]
      by_cases h2 : cap ≤ st.seenUrls.length + 1
      · rw [if_pos h2]
        simp only [List.length_append, List.length_singleton]
        omega
      · rw [if_neg h2]
        refine ih _ ?_
        simp only [List.length_append, List.length_singleton]
        omega

theorem listEnqueueLoop_nodup (cap : Nat) :
    ∀ (links : List String) (st : CrawlState),
      st.enqueuedDetail.Nodup → (∀ u ∈ st.enqueuedDetail, u ∈ st.seenUrls) →
      (listEnqueueLoop cap links st).enqueuedDetail.Nodup ∧
        ∀ u ∈ (listEnqueueLoop cap links st).enqueuedDetail,
          u ∈ (listEnqueueLoop cap links st).seenUrls := by
  intro links
  induction links with
  | nil => exact fun st hnd hsub => ⟨hnd, hsub⟩
  | cons url rest ih =>
    intro st hnd hsub
    by_cases h1 : url = "" ∨ url ∈ st.seenUrls
    · rw [listEnqueueLoop, if_pos h1]
      exact ih st hnd hsub
    · have hseen : url ∉ st.seenUrls := fun hm => h1 (Or.inr hm)
      have hnotin : url ∉ st.enqueuedDetail := fun hm => hseen (hsub url hm)
      have hnd' : (st.enqueuedDetail ++ [url]).Nodup := by
        rw [List.nodup_append]
        refine ⟨hnd, List.nodup_singleton url, ?_⟩
        intro a ha hb
        rcases List.mem_singleton.mp hb with rfl
        exact hnotin ha
      have hsub' : ∀ u ∈ st.enqueuedDetail ++ [url], u ∈ st.seenUrls ++ [url] := by
        intro u hu
        rcases List.mem_append.mp hu with hu | hu
        · exact List.mem_append.mpr (Or.inl (hsub u hu))
        · exact List.mem_append.mpr (Or.inr hu)
      rw [listEnqueueLoop, if_neg h1]
      by_cases h2 : cap ≤ st.seenUrls.length + 1
      · rw [if_pos h2]
        exact ⟨hnd', hsub'⟩
      · rw [if_neg h2]
        exact ih _ hnd' hsub'

theorem listEnqueueLoop_seen_grows (cap : Nat) :
    ∀ (links : List String) (st : CrawlState) (u : String), u ∈ st.seenUrls →
      u ∈ (listEnqueueLoop cap links st).seenUrls := by
  intro links
  induction links with
  | nil => exact fun st u h => h
  | cons url rest ih =>
    intro st u hu
    by_cases h1 : url = "" ∨ url ∈ st.seenUrls
    · rw [listEnqueueLoop, if_pos h1]
      exact ih st u hu
    · rw [listEnqueueLoop, if_neg h1]
      by_cases h2 : cap ≤ st.seenUrls.length + 1
      · rw [if_pos h2]
        exact List.mem_append.mpr (Or.inl hu)
      · rw [if_neg h2]
        exact ih _ u (List.mem_append.mpr (Or.inl hu))

/-! ## Claim theorems -/

/-- C1: for every valid target count in [1, 500], the enqueue loop never admits
more DETAIL tasks than the target, and since the DETAIL handler emits exactly one
record per successfully handled task, the run ends with
`collectedCount ≤ targetCount`. -/
theorem claimC1_emits_at_most_target (cap : Nat) (hcap1 : 1 ≤ cap) (_hcap2 : cap ≤ 500)
    (links : List String) (pageOf : String → DetailPage) :
    (listEnqueueLoop cap links initialCrawlState).enqueuedDetail.length ≤ cap ∧
      collectedCount cap links pageOf ≤ cap := by
  have hseen : (listEnqueueLoop cap links initialCrawlState).seenUrls.length ≤ cap :=
    listEnqueueLoop_seen_le cap links initialCrawlState hcap1
  have hlen : (listEnqueueLoop cap links initialCrawlState).enqueuedDetail.length =
      (listEnqueueLoop cap links initialCrawlState).seenUrls.length :=
    listEnqueueLoop_len_eq cap links initialCrawlState rfl
  have henq : (listEnqueueLoop cap links initialCrawlState).enqueuedDetail.length ≤ cap := by
    rw [hlen]; exact hseen
  refine ⟨henq, ?_⟩
  have hc : collectedCount cap links pageOf =
      ((listEnqueueLoop cap links initialCrawlState).enqueuedDetail.filter
        (fun u => (pageOf u).succeeds)).length := by
    simp [collectedCount, emittedRecords]
  rw [hc]
  exact le_trans (List.length_filter_le _ _) henq

/-- Witness for C1 at target 3 with four discovered links. -/
theorem claimC1_witness :
    1 ≤ 3 ∧ 3 ≤ 500 ∧
      ((listEnqueueLoop 3 ["https://jobs.workable.com/view/a", "https://jobs.workable.com/view/b",
          "https://jobs.workable.com/view/c", "https://jobs.workable.com/view/d"]
        initialCrawlState).enqueuedDetail.length ≤ 3 ∧
      collectedCount 3 ["https://jobs.workable.com/view/a", "https://jobs.workable.com/view/b",
          "https://jobs.workable.com/view/c", "https://jobs.workable.com/view/d"]
        (fun _ => {}) ≤ 3) :=
  ⟨by decide, by decide,
   claimC1_emits_at_most_target 3 (by decide) (by decide) _ _⟩

/-- C2: no two emitted JobRecords share a sourceUrl — the enqueued DETAIL list is
duplicate-free because every enqueue is guarded by the seen-URL set, which starts
empty and only grows. -/
theorem claimC2_no_duplicate_source_urls (cap : Nat) (links : List String)
    (pageOf : String → DetailPage) :
    ((emittedRecords cap links pageOf).map (fun r => r.url)).Nodup ∧
      initialCrawlState.seenUrls = [] ∧
      ∀ (st : CrawlState) (u : String), u ∈ st.seenUrls →
        u ∈ (listEnqueueLoop cap links st).seenUrls := by
  refine ⟨?_, rfl, fun st u hu => listEnqueueLoop_seen_grows cap links st u hu⟩
  have h := listEnqueueLoop_nodup cap links initialCrawlState
    List.nodup_nil (fun u hu => absurd hu (List.not_mem_nil u))
  have hmap : (emittedRecords cap links pageOf).map (fun r => r.url) =
      (listEnqueueLoop cap links initialCrawlState).enqueuedDetail.filter
        (fun u => (pageOf u).succeeds) := by
    simp only [emittedRecords, List.map_map]
    have hfun : ((fun r : JobRecord => r.url) ∘ fun u =>
        detailItem u (pageOf u).ld (pageOf u).dom (pageOf u).scrapedAt) = fun u => u := rfl
    rw [hfun, List.map_id']
  rw [hmap]
  exact h.1.filter _

/-- Witness for C2, discharging the seen-set growth hypothesis at a concrete state. -/
theorem claimC2_witness :
    ("u" : String) ∈ (⟨["u"], []⟩ : CrawlState).seenUrls ∧
      "u" ∈ (listEnqueueLoop 2 ["a", "b"] ⟨["u"], []⟩).seenUrls :=
  ⟨by decide,
   (claimC2_no_duplicate_source_urls 2 ["a", "b"] (fun _ => { })).2.2 ⟨["u"], []⟩ "u" (by decide)⟩

/-- C3: the effective results target defaults to 50 when absent and is clamped to
[1, 500] for every supplied number: below 1 maps to 1, above 500 maps to 500. -/
theorem claimC3_results_wanted_clamp :
    resultsWantedOf none = 50 ∧
      (∀ v : Option Int, 1 ≤ resultsWantedOf v ∧ resultsWantedOf v ≤ 500) ∧
      (∀ n : Int, n < 1 → resultsWantedOf (some n) = 1) ∧
      (∀ n : Int, 500 < n → resultsWantedOf (some n) = 500) := by
  refine ⟨by norm_num [resultsWantedOf], fun v => ⟨le_max_left _ _, ?_⟩,
    fun n h => ?_, fun n h => ?_⟩
  · exact max_le (by norm_num) (min_le_left _ _)
  · simp only [resultsWantedOf, Option.getD_some]
    rw [min_eq_right (by omega), max_eq_left (by omega)]
  · simp only [resultsWantedOf, Option.getD_some]
    rw [min_eq_left (by omega), max_eq_right (by omega)]

/-- Witness for C3 at the out-of-range inputs -7 and 1000. -/
theorem claimC3_witness :
    ((-7 : Int) < 1 ∧ resultsWantedOf (some (-7)) = 1) ∧
      ((500 : Int) < 1000 ∧ resultsWantedOf (some 1000) = 500) :=
  ⟨⟨by decide, claimC3_results_wanted_clamp.2.2.1 (-7) (by decide)⟩,
   ⟨by decide, claimC3_results_wanted_clamp.2.2.2 1000 (by decide)⟩⟩

theorem buildSearchUrl_params (input : InputSchema) :
    (buildSearchUrl input).params =
      match input.postedDate with
      | some .h24 => [("query", input.keyword), ("day_range", "1")]
      | some .d7 => [("query", input.keyword), ("day_range", "7")]
      | some .d30 => [("query", input.keyword), ("day_range", "30")]
      | _ => [("query", input.keyword)] := by
  obtain ⟨kw, loc, pd, rwt⟩ := input
  cases pd with
  | none => rfl
  | some p => cases p <;> rfl

theorem buildSearchUrl_base (input : InputSchema) :
    (buildSearchUrl input).base =
      match input.location with
      | some loc =>
        if loc ≠ "" && looksSlug loc then "https://jobs.workable.com/search/" ++ loc
        else "https://jobs.workable.com/search"
      | none => "https://jobs.workable.com/search" := by
  obtain ⟨kw, loc, pd, rwt⟩ := input
  cases loc <;> rfl

theorem looksSlug_ne_empty (s : String) (h : looksSlug s = true) : s ≠ "" := by
  intro he
  subst he
  exact absurd h (by decide)

/-- C4: the search URL always carries the keyword as the `query` parameter;
`postedDate` maps to `day_range` as 24h→1, 7d→7, 30d→30 and anytime/absent→no
`day_range` at all; a slug-shaped location is appended to the base as a path
segment and never touches the query parameters, and a non-slug location is
ignored entirely. -/
theorem claimC4_build_search_url (input : InputSchema) :
    ("query", input.keyword) ∈ (buildSearchUrl input).params ∧
      (input.postedDate = some .h24 →
        (buildSearchUrl input).params = [("query", input.keyword), ("day_range", "1")]) ∧
      (input.postedDate = some .d7 →
        (buildSearchUrl input).params = [("query", input.keyword), ("day_range", "7")]) ∧
      (input.postedDate = some .d30 →
        (buildSearchUrl input).params = [("query", input.keyword), ("day_range", "30")]) ∧
      (input.postedDate = some .anytime ∨ input.postedDate = none →
        (buildSearchUrl input).params = [("query", input.keyword)]) ∧
      (∀ loc, input.location = some loc → looksSlug loc = true →
        (buildSearchUrl input).base = "https://jobs.workable.com/search/" ++ loc) ∧
      (∀ loc, input.location = some loc → looksSlug loc = false →
        (buildSearchUrl input).base = "https://jobs.workable.com/search") ∧
      (buildSearchUrl input).params = (buildSearchUrl { input with location := none }).params := by
  refine ⟨?_, fun h => ?_, fun h => ?_, fun h => ?_, fun h => ?_,
    fun loc hl hs => ?_, fun loc hl hs => ?_, ?_⟩
  · rw [buildSearchUrl_params]
    cases hpd : input.postedDate with
    | none => simp
    | some p => cases p <;> simp
  · rw [buildSearchUrl_params, h]
  · rw [buildSearchUrl_params, h]
  · rw [buildSearchUrl_params, h]
  · rcases h with h | h <;> rw [buildSearchUrl_params, h]
  · rw [buildSearchUrl_base, hl]
    have hne : loc ≠ "" := looksSlug_ne_empty loc hs
    simp [hne, hs]
  · rw [buildSearchUrl_base, hl]
    simp [hs]
  · rw [buildSearchUrl_params, buildSearchUrl_params]

/-- Witness for C4 with keyword Administrator, a slug location and a 7d filter. -/
theorem claimC4_witness :
    looksSlug "united-states" = true ∧
      (buildSearchUrl
          { keyword := "Administrator", location := some "united-states",
            postedDate := some .d7 }).base = "https://jobs.workable.com/search/united-states" ∧
      (buildSearchUrl
          { keyword := "Administrator", location := some "united-states",
            postedDate := some .d7 }).params = [("query", "Administrator"), ("day_range", "7")] :=
  ⟨by decide,
   (claimC4_build_search_url _).2.2.2.2.2.1 "united-states" rfl (by decide),
   (claimC4_build_search_url _).2.2.1 rfl⟩

/-! ## Lemmas about first-occurrence deduplication -/

theorem dedupFirstAux_nodup :
    ∀ (l seen : List String), (dedupFirstAux seen l).Nodup ∧
      ∀ x ∈ dedupFirstAux seen l, x ∉ seen := by
  intro l
  induction l with
  | nil => exact fun seen => ⟨List.nodup_nil, by simp [dedupFirstAux]⟩
  | cons a rest ih =>
    intro seen
    by_cases h : a ∈ seen
    · rw [dedupFirstAux, if_pos h]
      exact ih seen
    · rw [dedupFirstAux, if_neg h]
      obtain ⟨hnd, hni⟩ := ih (seen ++ [a])
      constructor
      · refine List.nodup_cons.mpr ⟨?_, hnd⟩
        intro hmem
        exact hni a hmem (List.mem_append.mpr (Or.inr (List.mem_singleton.mpr rfl)))
      · intro x hx hxseen
        rcases List.mem_cons.mp hx with rfl | hx
        · exact h hxseen
        · exact hni x hx (List.mem_append.mpr (Or.inl hxseen))

theorem dedupFirstAux_mem :
    ∀ (l seen : List String) (x : String),
      x ∈ dedupFirstAux seen l ↔ x ∈ l ∧ x ∉ seen := by
  intro l
  induction l with
  | nil => intro seen x; simp [dedupFirstAux]
  | cons a rest ih =>
    intro seen x
    by_cases h : a ∈ seen
    · rw [dedupFirstAux, if_pos h, ih]
      constructor
      · rintro ⟨hx, hxs⟩
        exact ⟨List.mem_cons_of_mem a hx, hxs⟩
      · rintro ⟨hx, hxs⟩
        rcases List.mem_cons.mp hx with rfl | hx
        · exact absurd h hxs
        · exact ⟨hx, hxs⟩
    · rw [dedupFirstAux, if_neg h]
      constructor
      · intro hx
        rcases List.mem_cons.mp hx with rfl | hx
        · exact ⟨List.mem_cons_self x rest, h⟩
        · rw [ih] at hx
          obtain ⟨h1, h2⟩ := hx
          exact ⟨List.mem_cons_of_mem a h1, fun hs => h2 (List.mem_append.mpr (Or.inl hs))⟩
      · rintro ⟨hx, hxs⟩
        rcases List.mem_cons.mp hx with rfl | hx
        · exact List.mem_cons_self x _
        · by_cases hxa : x = a
          · subst hxa
            exact List.mem_cons_self x _
          · refine List.mem_cons_of_mem a ?_
            rw [ih]
            refine ⟨hx, fun hs => ?_⟩
            rcases List.mem_append.mp hs with hs | hs
            · exact hxs hs
            · exact hxa (List.mem_singleton.mp hs)

theorem dedupFirst_nodup (l : List String) : (dedupFirst l).Nodup :=
  (dedupFirstAux_nodup l []).1

theorem dedupFirst_mem (l : List String) (x : String) : x ∈ dedupFirst l ↔ x ∈ l := by
  rw [dedupFirst, dedupFirstAux_mem]
  simp

/-! ## Lemmas about the JSON-LD block selection -/

theorem pick_eq_qualifiesAmended (j : Json) : pick j = qualifiesAmended j := by
  cases j with
  | null => rfl
  | bool b => cases b <;> rfl
  | num n =>
    rcases eq_or_ne n 0 with h | h
    · subst h; rfl
    · simp [pick, qualifiesAmended, Json.truthy, typeIsJobPosting, Json.getField, h]
  | str s =>
    rcases eq_or_ne s "" with h | h
    · subst h; rfl
    · simp [pick, qualifiesAmended, Json.truthy, typeIsJobPosting, Json.getField, h]
  | arr elems => rfl
  | obj fields =>
    by_cases ht : typeIsJobPosting (Json.obj fields)
    · simp [pick, qualifiesAmended, Json.truthy, ht]
    · simp only [pick, qualifiesAmended, Json.truthy, ht, Bool.not_true, if_neg]
      cases (Json.obj fields).getField "mainEntityOfPage" <;> simp

theorem parseJobPostingJSONLD_eq_specSelectAmended :
    ∀ blobs : List (Option Json), parseJobPostingJSONLD blobs = specSelectAmended blobs := by
  intro blobs
  induction blobs with
  | nil => rfl
  | cons b rest ih =>
    rw [parseJobPostingJSONLD]
    have hb : b.bind pick = b.bind qualifiesAmended := by
      cases b with
      | none => rfl
      | some j => simp [Option.bind, pick_eq_qualifiesAmended j]
    rw [hb]
    cases h : b.bind qualifiesAmended with
    | some jp => simp [specSelectAmended, List.filterMap_cons, h]
    | none =>
      simp only [specSelectAmended, List.filterMap_cons, h]
      exact ih

/-- C5 counterexample: the structured title is present but empty while the DOM
probe found a title; the claimed precedence selects the DOM value, but the
emitted title is the empty structured value. -/
theorem claimC5_counterexample :
    specPrecedence (some "") (some "Engineer") = some "Engineer" ∧
      (detailItem "https://jobs.workable.com/view/x" (some { title := some "" })
        { titleText := some "Engineer" } "2024-01-01").title = "" ∧
      ("" : String) ≠ "Engineer" :=
  ⟨rfl, rfl, by decide⟩

/-- C5 (amended): the per-field precedence as implemented — for the title the
structured value wins whenever it is present, even when empty; for company and
location the structured extractors already turn empty parts into null, and the
DOM value (trimmed) is used exactly when the structured side is null, with the
empty string as final fallback; the structured description is used only when
nonempty and tag-like; and when the only data source is a well-formed structured
block with nonempty fields and a markup description, the emitted title, company,
location and descriptionHtml equal the block values exactly. -/
theorem claimC5_amended (url ts : String) (ld : Option LD) (dom : DomResults) :
    (∀ t, ld.bind (fun j => j.title) = some t → (detailItem url ld dom ts).title = t) ∧
      (ld.bind (fun j => j.title) = none →
        (detailItem url ld dom ts).title = (dom.titleText.map (fun s => s.trim)).getD "") ∧
      (∀ c, extractCompanyFromLD ld = some c → (detailItem url ld dom ts).company = c) ∧
      (extractCompanyFromLD ld = none →
        (detailItem url ld dom ts).company = (dom.companyText.map (fun s => s.trim)).getD "") ∧
      (∀ v, extractLocationFromLD ld = some v → (detailItem url ld dom ts).location = v) ∧
      (extractLocationFromLD ld = none →
        (detailItem url ld dom ts).location = (dom.locationText.map (fun s => s.trim)).getD "") ∧
      (∀ d, ld.bind (fun j => j.description) = some d → d ≠ "" → looksLikeHtml d = true →
        (detailItem url ld dom ts).descriptionHtml = d) ∧
      (∀ t c d city region : String,
        c ≠ "" → city ≠ "" → region ≠ "" → d ≠ "" → looksLikeHtml d = true →
        detailItem url
          (some
            { title := some t, description := some d,
              hiringOrganization := some (.one { name := some c }),
              jobLocation := some (.one { direct :=
                { addressLocality := some city, addressRegion := some region } }) })
          { } ts =
        { url := url, title := t, company := c,
          location := String.intercalate ", " [city, region],
          datePosted := none, employmentType := none, validThrough := none,
          externalId := none, descriptionHtml := d, scrapedAt := ts }) := by
  refine ⟨fun t h => ?_, fun h => ?_, fun c h => ?_, fun h => ?_, fun v h => ?_, fun h => ?_,
    fun d h hne hhtml => ?_, fun t c d city region hc hcity hregion hd hhtml => ?_⟩
  · simp [detailItem, h]
  · simp [detailItem, h]
  · simp [detailItem, h]
  · simp [detailItem, h]
  · simp [detailItem, h]
  · simp [detailItem, h]
  · simp [detailItem, descriptionHtmlOf, h, hne, hhtml]
  · simp [detailItem, descriptionHtmlOf, extractCompanyFromLD, extractLocationFromLD,
      extractExternalId, normalizeEmploymentType, hc, hcity, hregion, hd, hhtml,
      Option.orElse]

/-- Witness for the amended C5 at a concrete structured-only page. -/
theorem claimC5_witness :
    (("Acme" : String) ≠ "" ∧ ("Berlin" : String) ≠ "" ∧ ("BE" : String) ≠ "" ∧
        ("<p>Great role</p>" : String) ≠ "" ∧ looksLikeHtml "<p>Great role</p>" = true) ∧
      detailItem "https://jobs.workable.com/view/x"
        (some
          { title := some "Engineer", description := some "<p>Great role</p>",
            hiringOrganization := some (.one { name := some "Acme" }),
            jobLocation := some (.one { direct :=
              { addressLocality := some "Berlin", addressRegion := some "BE" } }) })
        { } "2024-01-01" =
      { url := "https://jobs.workable.com/view/x", title := "Engineer", company := "Acme",
        location := String.intercalate ", " ["Berlin", "BE"],
        datePosted := none, employmentType := none, validThrough := none,
        externalId := none, descriptionHtml := "<p>Great role</p>", scrapedAt := "2024-01-01" } :=
  ⟨⟨by decide, by decide, by decide, by decide, by decide⟩,
   (claimC5_amended "https://jobs.workable.com/view/x" "2024-01-01" none { }).2.2.2.2.2.2.2
     "Engineer" "Acme" "<p>Great role</p>" "Berlin" "BE"
     (by decide) (by decide) (by decide) (by decide) (by decide)⟩

/-- C6 counterexample: a padded structured title is emitted untrimmed (it keeps
its edge whitespace), and when no tier yields a company the emitted company is
the empty string, not null. -/
theorem claimC6_counterexample :
    (detailItem "u" (some { title := some "  Padded  " }) { } "t").title = "  Padded  " ∧
      noEdgeSpace (detailItem "u" (some { title := some "  Padded  " }) { } "t").title = false ∧
      (detailItem "u" none { } "t").company = "" :=
  ⟨rfl, by decide, rfl⟩

/-- C6 (amended): DOM-extracted title, company and location text is trimmed
before use, structured values pass through untrimmed, and when no tier yields a
value the emitted title, company and location are the empty string while
datePosted, employmentType, validThrough and externalId are null. -/
theorem claimC6_amended (url ts s : String) (dom : DomResults) :
    (detailItem url none { dom with titleText := some s } ts).title = s.trim ∧
      (detailItem url none { dom with companyText := some s } ts).company = s.trim ∧
      (detailItem url none { dom with locationText := some s } ts).location = s.trim ∧
      (detailItem url (some { title := some s }) dom ts).title = s ∧
      (detailItem url none { } ts).title = "" ∧
      (detailItem url none { } ts).company = "" ∧
      (detailItem url none { } ts).location = "" ∧
      (detailItem url none { } ts).datePosted = none ∧
      (detailItem url none { } ts).employmentType = none ∧
      (detailItem url none { } ts).validThrough = none ∧
      (detailItem url none { } ts).externalId = none :=
  ⟨rfl, rfl, rfl, rfl, rfl, rfl, rfl, rfl, rfl, rfl, rfl⟩

/-- C7 counterexample: a lone array blob whose only element has a truthy title
but no declared type is selected by the extractor, although no block qualifies
through a declared type, where the spec demands a null result. -/
theorem claimC7_counterexample :
    qualifiesByDeclaredType (Json.arr [Json.obj [("title", Json.str "Engineer")]]) = none ∧
      specSelectDeclared [some (Json.arr [Json.obj [("title", Json.str "Engineer")]])] = none ∧
      parseJobPostingJSONLD [some (Json.arr [Json.obj [("title", Json.str "Engineer")]])] =
        some (Json.obj [("title", Json.str "Engineer")]) ∧
      parseJobPostingJSONLD [some (Json.arr [Json.obj [("title", Json.str "Engineer")]])] ≠
        specSelectDeclared [some (Json.arr [Json.obj [("title", Json.str "Engineer")]])] :=
  ⟨rfl, rfl, rfl, fun h => Option.noConfusion h⟩

/-- C7 (amended): malformed blocks are skipped without failing the page, the
extractor returns the first block that qualifies — declared JobPosting type
directly or under the main-entity wrapper, or, for an array blob, its first
truthy element with the declared type or a truthy title — and it returns null
when no block qualifies or all blocks are malformed. -/
theorem claimC7_amended (blobs : List (Option Json)) :
    (∀ rest : List (Option Json),
        parseJobPostingJSONLD (none :: rest) = parseJobPostingJSONLD rest) ∧
      parseJobPostingJSONLD blobs = specSelectAmended blobs ∧
      ((∀ b ∈ blobs, b.bind qualifiesAmended = none) → parseJobPostingJSONLD blobs = none) := by
  refine ⟨fun rest => rfl, parseJobPostingJSONLD_eq_specSelectAmended blobs, fun h => ?_⟩
  rw [parseJobPostingJSONLD_eq_specSelectAmended blobs, specSelectAmended,
    List.filterMap_eq_nil_iff.mpr h]
  rfl

/-- Witness for the amended C7 on a null blob followed by a malformed blob. -/
theorem claimC7_witness :
    (∀ b ∈ ([some Json.null, none] : List (Option Json)), b.bind qualifiesAmended = none) ∧
      parseJobPostingJSONLD [some Json.null, none] = none := by
  have hq : ∀ b ∈ ([some Json.null, none] : List (Option Json)),
      b.bind qualifiesAmended = none := by
    intro b hb
    rcases List.mem_cons.mp hb with rfl | hb
    · rfl
    · rcases List.mem_cons.mp hb with rfl | hb
      · rfl
      · exact absurd hb (List.not_mem_nil b)
  exact ⟨hq, (claimC7_amended [some Json.null, none]).2.2 hq⟩

/-- C8 counterexample: a single empty-string employmentType does not pass
through unchanged — the falsiness guard maps it to null. -/
theorem claimC8_counterexample :
    normalizeEmploymentType (some (.single "")) = none ∧
      normalizeEmploymentType (some (.single "")) ≠ some "" :=
  ⟨rfl, by decide⟩

/-- C8 (amended): a list employmentType is deduplicated keeping first
occurrences and joined with comma separators, so the doubled Full-time list
normalizes to exactly Full-time; a nonempty single string passes through
unchanged, while the empty single string maps to null. -/
theorem claimC8_amended :
    normalizeEmploymentType (some (.list ["Full-time", "Full-time"])) = some "Full-time" ∧
      (∀ l : List String, normalizeEmploymentType (some (.list l)) =
        some (String.intercalate ", " (dedupFirst l))) ∧
      (∀ l : List String, (dedupFirst l).Nodup ∧ ∀ x : String, x ∈ dedupFirst l ↔ x ∈ l) ∧
      (∀ s : String, s ≠ "" → normalizeEmploymentType (some (.single s)) = some s) ∧
      normalizeEmploymentType (some (.single "")) = none := by
  refine ⟨by decide, fun l => rfl, fun l => ⟨dedupFirst_nodup l, dedupFirst_mem l⟩,
    fun s hs => ?_, rfl⟩
  simp [normalizeEmploymentType, hs]

/-- Witness for the amended C8 at the nonempty single value Part-time. -/
theorem claimC8_witness :
    ("Part-time" : String) ≠ "" ∧
      normalizeEmploymentType (some (.single "Part-time")) = some "Part-time" :=
  ⟨by decide, claimC8_amended.2.2.2.1 "Part-time" (by decide)⟩

/-- C9 counterexample: on a listing page where no marker ever appears, the
handler saves both debug artifacts and then rethrows — the discovery failure
does propagate as an exception out of the handler — while enqueueing nothing. -/
theorem claimC9_counterexample :
    (listHandler 50 initialCrawlState
        { markersAppear := false, html := "<html></html>", screenshot := "png-bytes" }).outcome
      = HandlerOutcome.threw ∧
      (listHandler 50 initialCrawlState
        { markersAppear := false, html := "<html></html>",
          screenshot := "png-bytes" }).state.enqueuedDetail = [] ∧
      (listHandler 50 initialCrawlState
        { markersAppear := false, html := "<html></html>", screenshot := "png-bytes" }).artifacts
      = [("LIST_HTML_DEBUG", "<html></html>"), ("LIST_SCREENSHOT_DEBUG", "png-bytes")] :=
  ⟨rfl, rfl, rfl⟩

/-- C9 (amended): when no marker appears within the bounded wait the LIST
handler produces zero DETAIL tasks, captures the page HTML and the screenshot
as diagnostic artifacts, and rethrows the error out of the handler; the crawl
controller absorbs the failed request, so the run completes with zero records
from that listing instead of aborting. -/
theorem claimC9_amended (cap : Nat) (st : CrawlState) (pg : ListPage)
    (pageOf : String → DetailPage) (h : pg.markersAppear = false) :
    (listHandler cap st pg).state = st ∧
      (listHandler cap st pg).outcome = HandlerOutcome.threw ∧
      (listHandler cap st pg).artifacts =
        [("LIST_HTML_DEBUG", pg.html), ("LIST_SCREENSHOT_DEBUG", pg.screenshot)] ∧
      crawlRunCollected cap pg pageOf = 0 := by
  refine ⟨?_, ?_, ?_, ?_⟩ <;> simp [listHandler, crawlRunCollected, h]

/-- Witness for the amended C9 at a concrete marker-less listing page. -/
theorem claimC9_witness :
    ({ markersAppear := false, html := "h", screenshot := "s" } : ListPage).markersAppear
      = false ∧
      ((listHandler 50 initialCrawlState
          { markersAppear := false, html := "h", screenshot := "s" }).state
        = initialCrawlState ∧
       (listHandler 50 initialCrawlState
          { markersAppear := false, html := "h", screenshot := "s" }).outcome
        = HandlerOutcome.threw ∧
       (listHandler 50 initialCrawlState
          { markersAppear := false, html := "h", screenshot := "s" }).artifacts
        = [("LIST_HTML_DEBUG", "h"), ("LIST_SCREENSHOT_DEBUG", "s")] ∧
       crawlRunCollected 50 { markersAppear := false, html := "h", screenshot := "s" }
          (fun _ => { }) = 0) :=
  ⟨rfl, claimC9_amended 50 initialCrawlState _ _ rfl⟩

/-- C10: an empty employmentType list normalizes to the empty string, which the
nullish chain treats as present, so the DOM heuristic guess (whatever it would
return) is never consulted and the emitted employmentType is the empty string,
not null. -/
theorem claimC10_empty_list_employment_type (url ts : String) (base : LD) (dom : DomResults) :
    normalizeEmploymentType (some (.list [])) = some "" ∧
      (detailItem url (some { base with employmentType := some (.list []) })
          dom ts).employmentType = some "" := by
  constructor
  · rfl
  · simp only [detailItem, normalizeEmploymentType, dedupFirst, dedupFirstAux, Option.orElse,
      Option.some_bind]
    rfl

end WorkableScraper
